import Mathlib

/-
Verification of the mini_pascal_scanner repository against its
natural-language specification.

The repository ships two parts:
  - a lexical scanner for a Pascal-like language (described in detail by the
    specification; its implementation is not part of the published sources,
    which contain only the browser front end and the README), and
  - the browser front end, src/frontend/website/script.js, which submits
    source code to the scan endpoint and renders the returned ScanResult.

The scanner is therefore modelled here from the specification, definition by
definition, while the front-end functions (normalizeError, escapeHtml, the
submit-click handler, the EOF filter and the three result-table renderers)
are shallow embeddings of the JavaScript in script.js.
-/

set_option autoImplicit false

/-- Modelled from the spec: the closed set of token kinds (section 6 of the
specification); the scanner implementation itself is not among the published
sources. -/
inductive TokenKind where
  | KEYWORD
  | IDENTIFIER
  | INTEGER
  | REAL
  | STRING
  | OPERATOR
  | DELIMITER
  | EOF
deriving DecidableEq

/-- Modelled from the spec: Token record (section 3), with 1-based line and
column of the token's first character and the exact source lexeme. -/
structure Token where
  kind : TokenKind
  lexeme : String
  line : Nat
  col : Nat
deriving DecidableEq

/-- Modelled from the spec: SymbolEntry record (section 3), keyed externally
by the exact identifier spelling. -/
structure SymbolEntry where
  first_line : Nat
  first_col : Nat
  occurrences : Nat
deriving DecidableEq

/-- Modelled from the spec: Diagnostic record (section 3). -/
structure Diagnostic where
  line : Nat
  col : Nat
  message : String
deriving DecidableEq

/-- Modelled from the spec: ScanResult record (section 3); the symbol table
is an insertion-ordered association list from identifier spelling to entry. -/
structure ScanResult where
  tokens : List Token
  symbols : List (String × SymbolEntry)
  diagnostics : List Diagnostic
  success : Bool
deriving DecidableEq

/-- Modelled from the spec: classifier predicate for identifier-starting
characters (letter or underscore, section 4.3 rule 3). -/
def isIdentStart (c : Char) : Bool :=
  c.isAlpha || c = '_'

/-- Modelled from the spec: classifier predicate for identifier-continuing
characters (letter, digit or underscore, section 4.3 rule 3). -/
def isIdentCont (c : Char) : Bool :=
  c.isAlpha || c.isDigit || c = '_'

/-- The string-literal delimiter (a single quote, code point 39). -/
def quoteChar : Char := Char.ofNat 39

/-- The block-comment opener (left curly brace, code point 123). -/
def lbrace : Char := Char.ofNat 123

/-- The block-comment closer (right curly brace, code point 125). -/
def rbrace : Char := Char.ofNat 125

/-- Modelled from the spec: the fixed, case-sensitive reserved-word set
(sections 4.2 and 9; the exact membership is a fixed policy choice of the
implementation, here the usual mini-Pascal keywords). -/
def reservedWords : List String :=
  ["program", "var", "begin", "end", "if", "then", "else", "while", "do",
   "procedure", "function", "integer", "real", "and", "or", "not", "div", "mod"]

/-- Modelled from the spec: the fixed table of two-character operators
(assignment, not-equal, less-or-equal, greater-or-equal; section 4.3 rule 6). -/
def twoCharOps : List (Char × Char) :=
  [(':', '='), ('<', '>'), ('<', '='), ('>', '=')]

/-- Modelled from the spec: single-character operators (section 4.3 rule 6). -/
def singleOps : List Char :=
  ['+', '-', '*', '/', '=', '<', '>']

/-- Modelled from the spec: single-character delimiters (section 4.3 rule 6). -/
def delimChars : List Char :=
  [';', ',', '.', '(', ')', ':']

/-- Result of consuming a string-literal body: the content characters, the
remaining input, and whether the closing quote was found on the same line. -/
structure StrScanRes where
  content : List Char
  rest : List Char
  closed : Bool

/-- Modelled from the spec: consume a string-literal body up to a matching
closing quote on the same line (section 4.3 rule 5); stops without consuming
the newline when the line ends first. -/
def spanStr : List Char → StrScanRes
  | [] => ⟨[], [], false⟩
  | c :: cs =>
    if c = quoteChar then ⟨[], cs, true⟩
    else if c = '\n' then ⟨[], c :: cs, false⟩
    else ⟨c :: (spanStr cs).content, (spanStr cs).rest, (spanStr cs).closed⟩

/-- Result of consuming a block-comment body: the remaining input, the
position reached, and whether the matching closer was found. -/
structure BlockScanRes where
  rest : List Char
  line : Nat
  col : Nat
  closed : Bool

/-- Modelled from the spec: consume a block comment up to its matching closer,
tracking line and column (section 4.3 rule 2). -/
def spanBlock : List Char → Nat → Nat → BlockScanRes
  | [], line, col => ⟨[], line, col, false⟩
  | c :: cs, line, col =>
    if c = rbrace then ⟨cs, line, col + 1, true⟩
    else if c = '\n' then spanBlock cs (line + 1) 1
    else spanBlock cs line (col + 1)

/-- Modelled from the spec: skip the remainder of a malformed number literal
(runs of a decimal point followed by digits, section 4.3 rule 4), returning
the number of characters skipped and the remaining input. -/
def skipFrac : List Char → Nat × List Char
  | [] => (0, [])
  | c :: cs =>
    if c.isDigit then ((skipFrac cs).1 + 1, (skipFrac cs).2)
    else if c = '.' then
      match cs with
      | d :: _ => if d.isDigit then ((skipFrac cs).1 + 1, (skipFrac cs).2) else (0, c :: cs)
      | [] => (0, c :: cs)
    else (0, c :: cs)

/-- One transition of the scanner state machine: either end of input, a fatal
end of scan after an unterminated block comment (diagnostic plus final
position), or one recognition step producing an optional token, an optional
diagnostic, the remaining input and the new position. -/
inductive StepOut where
  | eofOut : StepOut
  | stop : Diagnostic → Nat → Nat → StepOut
  | next : Option Token → Option Diagnostic → List Char → Nat → Nat → StepOut

/-- Modelled from the spec: recognition of a single-character operator or
delimiter, or the illegal-character fault with panic-mode recovery
(section 4.3 rule 6). -/
def singleTok (c : Char) (rest : List Char) (line col : Nat) : StepOut :=
  if singleOps.contains c then
    .next (some ⟨.OPERATOR, String.mk [c], line, col⟩) none rest line (col + 1)
  else if delimChars.contains c then
    .next (some ⟨.DELIMITER, String.mk [c], line, col⟩) none rest line (col + 1)
  else
    .next none (some ⟨line, col, "illegal character"⟩) rest line (col + 1)

/-- Modelled from the spec: identifier / keyword recognition with maximal
munch and whole-lexeme reserved-word lookup (section 4.3 rule 3). The
argument starts with an identifier-starting character. -/
def identTok (cs : List Char) (line col : Nat) : StepOut :=
  if reservedWords.contains (String.mk (cs.takeWhile isIdentCont)) then
    .next (some ⟨.KEYWORD, String.mk (cs.takeWhile isIdentCont), line, col⟩) none
      (cs.dropWhile isIdentCont) line (col + (cs.takeWhile isIdentCont).length)
  else
    .next (some ⟨.IDENTIFIER, String.mk (cs.takeWhile isIdentCont), line, col⟩) none
      (cs.dropWhile isIdentCont) line (col + (cs.takeWhile isIdentCont).length)

/-- Modelled from the spec: number recognition (section 4.3 rule 4): a maximal
digit run, an optional fraction entered only when the decimal point is
followed by a digit, and the malformed-number fault with a best-effort REAL
token when a second decimal point appears inside the literal. The argument
starts with a digit. -/
def numTok (cs : List Char) (line col : Nat) : StepOut :=
  match cs.dropWhile Char.isDigit with
  | '.' :: d :: r2 =>
    if d.isDigit then
      match (d :: r2).dropWhile Char.isDigit with
      | '.' :: d2 :: r5 =>
        if d2.isDigit then
          .next
            (some ⟨.REAL,
              String.mk (cs.takeWhile Char.isDigit ++ '.' :: (d :: r2).takeWhile Char.isDigit),
              line, col⟩)
            (some ⟨line, col, "malformed number literal"⟩)
            (skipFrac ('.' :: d2 :: r5)).2 line
            (col + (cs.takeWhile Char.isDigit).length + 1 +
              ((d :: r2).takeWhile Char.isDigit).length + (skipFrac ('.' :: d2 :: r5)).1)
        else
          .next
            (some ⟨.REAL,
              String.mk (cs.takeWhile Char.isDigit ++ '.' :: (d :: r2).takeWhile Char.isDigit),
              line, col⟩)
            none ('.' :: d2 :: r5) line
            (col + (cs.takeWhile Char.isDigit).length + 1 +
              ((d :: r2).takeWhile Char.isDigit).length)
      | r4 =>
        .next
          (some ⟨.REAL,
            String.mk (cs.takeWhile Char.isDigit ++ '.' :: (d :: r2).takeWhile Char.isDigit),
            line, col⟩)
          none r4 line
          (col + (cs.takeWhile Char.isDigit).length + 1 +
            ((d :: r2).takeWhile Char.isDigit).length)
    else
      .next (some ⟨.INTEGER, String.mk (cs.takeWhile Char.isDigit), line, col⟩) none
        ('.' :: d :: r2) line (col + (cs.takeWhile Char.isDigit).length)
  | r1 =>
    .next (some ⟨.INTEGER, String.mk (cs.takeWhile Char.isDigit), line, col⟩) none
      r1 line (col + (cs.takeWhile Char.isDigit).length)

/-- Modelled from the spec: string-literal recognition (section 4.3 rule 5);
`body` is the input after the opening quote. A terminated literal keeps both
quotes in its lexeme; an unterminated one records the fault at the opening
quote and still emits the partial content as a STRING token. -/
def strTok (body : List Char) (line col : Nat) : StepOut :=
  if (spanStr body).closed then
    .next
      (some ⟨.STRING, String.mk (quoteChar :: (spanStr body).content ++ [quoteChar]), line, col⟩)
      none (spanStr body).rest line (col + (spanStr body).content.length + 2)
  else
    .next
      (some ⟨.STRING, String.mk (quoteChar :: (spanStr body).content), line, col⟩)
      (some ⟨line, col, "unterminated string literal"⟩)
      (spanStr body).rest line (col + (spanStr body).content.length + 1)

/-- Modelled from the spec: block-comment handling (section 4.3 rule 2);
`body` is the input after the opener. An unterminated block comment is a
fault at the comment start and ends the scan (with the EOF token still
emitted by the coordinator). -/
def blockTok (body : List Char) (line col : Nat) : StepOut :=
  if (spanBlock body line (col + 1)).closed then
    .next none none (spanBlock body line (col + 1)).rest
      (spanBlock body line (col + 1)).line (spanBlock body line (col + 1)).col
  else
    .stop ⟨line, col, "unterminated comment"⟩
      (spanBlock body line (col + 1)).line (spanBlock body line (col + 1)).col

/-- Modelled from the spec: one per-token step of the scanner state machine
from the START state (section 4.3): whitespace and comments are skipped with
no token, identifiers, numbers, strings, operators and delimiters are
recognized with maximal munch, and unrecognized characters are the
illegal-character fault. -/
def step : List Char → Nat → Nat → StepOut
  | [], _, _ => .eofOut
  | c :: rest, line, col =>
    if c = '\n' then .next none none rest (line + 1) 1
    else if c = ' ' ∨ c = '\t' ∨ c = '\r' then .next none none rest line (col + 1)
    else if c = '/' ∧ rest.head? = some '/' then
      .next none none (rest.tail.dropWhile (fun x => x != '\n')) line
        (col + 2 + (rest.tail.takeWhile (fun x => x != '\n')).length)
    else if c = lbrace then blockTok rest line col
    else if isIdentStart c then identTok (c :: rest) line col
    else if c.isDigit then numTok (c :: rest) line col
    else if c = quoteChar then strTok rest line col
    else
      match rest with
      | c2 :: rest2 =>
        if twoCharOps.contains (c, c2) then
          .next (some ⟨.OPERATOR, String.mk [c, c2], line, col⟩) none rest2 line (col + 2)
        else singleTok c rest line col
      | [] => singleTok c rest line col

/-- Modelled from the spec: the symbol-table record operation (section 4.4):
an unseen name is inserted with its first position and occurrence count one,
a seen name has its count incremented in place. -/
def recordSym : List (String × SymbolEntry) → String → Nat → Nat → List (String × SymbolEntry)
  | [], name, line, col => [(name, ⟨line, col, 1⟩)]
  | (n, e) :: rest, name, line, col =>
    if n = name then (n, ⟨e.first_line, e.first_col, e.occurrences + 1⟩) :: rest
    else (n, e) :: recordSym rest name line col

/-- Symbol-table bookkeeping for one emitted token: the record operation is
invoked exactly for IDENTIFIER tokens (section 4.4). -/
def symStep (syms : List (String × SymbolEntry)) (t : Token) : List (String × SymbolEntry) :=
  if t.kind = .IDENTIFIER then recordSym syms t.lexeme t.line t.col else syms

/-- Symbol-table bookkeeping for the optional token a step emitted. -/
def symAcc (syms : List (String × SymbolEntry)) : Option Token → List (String × SymbolEntry)
  | none => syms
  | some t => symStep syms t

/-- Modelled from the spec: the scan coordinator loop (section 4.6), driving
the state machine to DONE while threading position, tokens, symbol table and
diagnostics. The fuel argument is an upper bound on the number of steps;
every step consumes at least one character, so any fuel exceeding the input
length is enough (the zero-fuel row is never reached from `scan`). -/
def scanAux : Nat → List Char → Nat → Nat → List Token → List (String × SymbolEntry) →
    List Diagnostic → ScanResult
  | 0, _, _, _, toks, syms, diags => ⟨toks, syms, diags, diags.isEmpty⟩
  | fuel + 1, cs, line, col, toks, syms, diags =>
    match step cs line col with
    | .eofOut => ⟨toks ++ [⟨.EOF, "", line, col⟩], syms, diags, diags.isEmpty⟩
    | .stop d el ec =>
      ⟨toks ++ [⟨.EOF, "", el, ec⟩], syms, diags ++ [d], (diags ++ [d]).isEmpty⟩
    | .next tok d rest l2 c2 =>
      scanAux fuel rest l2 c2 (toks ++ tok.toList) (symAcc syms tok) (diags ++ d.toList)

/-- Modelled from the spec: `scan` (section 4.6), the one operation the core
exposes: run the scanner to exhaustion over one source buffer, starting at
line 1 and column 1 with empty accumulators. -/
def scan (s : String) : ScanResult :=
  scanAux (s.data.length + 1) s.data 1 1 [] [] []

/-- A sequence of independent calls to `scan`, one per submitted source text
(used to state statelessness across calls). -/
def scanSession (sources : List String) : List ScanResult :=
  sources.map scan

/-- Lookup of an identifier spelling in the association-list symbol table. -/
def lookupSym (x : String) : List (String × SymbolEntry) → Option SymbolEntry
  | [] => none
  | (n, e) :: rest => if n = x then some e else lookupSym x rest

/-- Boolean test for an IDENTIFIER token with the given exact lexeme. -/
def isIdLex (x : String) (t : Token) : Bool :=
  t.kind == .IDENTIFIER && t.lexeme == x

/-- The symbol-table entry determined by the ordered list of IDENTIFIER
tokens sharing one lexeme: first position and total count. -/
def entryOf : List Token → Option SymbolEntry
  | [] => none
  | t :: ts => some ⟨t.line, t.col, ts.length + 1⟩

/-- The arguments of the symbol-table record invocations a token list gives
rise to: one invocation per IDENTIFIER token, in scan order, never for
KEYWORD (or any other) tokens. -/
def recordCalls (toks : List Token) : List (String × Nat × Nat) :=
  (toks.filter (fun t => t.kind == .IDENTIFIER)).map (fun t => (t.lexeme, t.line, t.col))

/-- Replay of a list of record invocations against an initially empty
symbol table. -/
def replayRecords (calls : List (String × Nat × Nat)) : List (String × SymbolEntry) :=
  calls.foldl (fun syms c => recordSym syms c.1 c.2.1 c.2.2) []

/-- Embedding of the JavaScript string `trim` used by the submit handler in
src/frontend/website/script.js: drop leading and trailing whitespace. -/
def jsTrim (s : String) : String :=
  String.mk (((s.data.dropWhile Char.isWhitespace).reverse.dropWhile Char.isWhitespace).reverse)

/-- The observable outcome of one click on the submit button in script.js:
either the inline validation warning is rendered and the handler returns, or
a POST request with the given code payload is sent to the scan endpoint. -/
inductive SubmitAction where
  | showWarning : SubmitAction
  | sendScan : String → SubmitAction
deriving DecidableEq

/-- Embedding of the submit-click handler of script.js (lines 31 to 67): the
editor content is trimmed; an empty result renders the validation warning and
returns before any fetch; otherwise the trimmed code is posted to the scan
endpoint as the request body. -/
def submitClick (editorContent : String) : SubmitAction :=
  if jsTrim editorContent = "" then .showWarning
  else .sendScan (jsTrim editorContent)

/-- A token item of the scan response as the front end consumes it: the
`type` discriminator, the optional lexeme, and the displayed position. -/
structure TokenJson where
  type : String
  lexeme : Option String
  line : Nat
  col : Nat
deriving DecidableEq

/-- Embedding of `tokensWithoutEOF` from script.js (line 140): when the
response carries a token list, keep exactly the tokens whose type is not
EOF; a missing list renders as empty. -/
def tokensWithoutEOF (tokens : Option (List TokenJson)) : List TokenJson :=
  match tokens with
  | some ts => ts.filter (fun t => !(t.type == "EOF"))
  | none => []

/-- Embedding of the displayed token count of script.js (line 144): the
length of the EOF-filtered list. -/
def displayedTokenCount (tokens : Option (List TokenJson)) : Nat :=
  (tokensWithoutEOF tokens).length

/-- Character-level HTML entity escaping: the three characters that are
special in text nodes become entities, every other character is kept. -/
def escapeHtmlList : List Char → List Char
  | [] => []
  | c :: cs =>
    (if c = '&' then ['&', 'a', 'm', 'p', ';']
     else if c = '<' then ['&', 'l', 't', ';']
     else if c = '>' then ['&', 'g', 't', ';']
     else [c]) ++ escapeHtmlList cs

/-- Embedding of `escapeHtml` from script.js (lines 25 to 29): the function
assigns the text to a detached div via textContent and reads back innerHTML,
which serializes the text node with the ampersand and angle-bracket
characters replaced by their HTML entities. -/
def escapeHtml (text : String) : String :=
  String.mk (escapeHtmlList text.data)

/-- Every ampersand of the list begins one of the entities produced by
escaping (amp, lt or gt); raw ampersands fail this check. -/
def ampEscaped : List Char → Bool
  | [] => true
  | c :: cs =>
    if c = '&' then
      (cs.take 4 = ['a', 'm', 'p', ';'] ∨ cs.take 3 = ['l', 't', ';'] ∨
        cs.take 3 = ['g', 't', ';']) && ampEscaped cs
    else ampEscaped cs

/-- A JavaScript runtime value, as far as normalizeError can observe it:
strings, numbers, booleans, null, undefined, and objects as key-value
field lists. -/
inductive JSValue where
  | vstr : String → JSValue
  | vnum : Int → JSValue
  | vbool : Bool → JSValue
  | vnull : JSValue
  | vundefined : JSValue
  | vobj : List (String × JSValue) → JSValue

/-- The JavaScript `typeof` operator on the modelled values (note that
`typeof null` is the string "object"). -/
def jsTypeof : JSValue → String
  | .vstr _ => "string"
  | .vnum _ => "number"
  | .vbool _ => "boolean"
  | .vnull => "object"
  | .vundefined => "undefined"
  | .vobj _ => "object"

/-- JavaScript truthiness of the modelled values: empty string, zero, false,
null and undefined are falsy, every object is truthy. -/
def jsTruthy : JSValue → Bool
  | .vstr s => !(s = "")
  | .vnum n => !(n = 0)
  | .vbool b => b
  | .vnull => false
  | .vundefined => false
  | .vobj _ => true

/-- Test for the undefined value. -/
def jsIsUndef : JSValue → Bool
  | .vundefined => true
  | _ => false

/-- JavaScript string conversion of the modelled values, as template-literal
interpolation and `String(err)` perform it. -/
def jsToString : JSValue → String
  | .vstr s => s
  | .vnum n => toString n
  | .vbool b => cond b "true" "false"
  | .vnull => "null"
  | .vundefined => "undefined"
  | .vobj _ => "[object Object]"

/-- Property access `v[key]` on the modelled values: the field value on an
object that carries the key, undefined otherwise. -/
def jsGet (v : JSValue) (key : String) : JSValue :=
  match v with
  | .vobj fields => (fields.lookup key).getD .vundefined
  | _ => .vundefined

/-- The JavaScript `a || b` operator on the modelled values: the left operand
when it is truthy, the right one otherwise. -/
def jsOr (a b : JSValue) : JSValue :=
  if jsTruthy a then a else b

/-- Minimal JSON string-content escaping (backslash and double quote), as
JSON.stringify applies to string values. -/
def jsonEscapeList : List Char → List Char
  | [] => []
  | c :: cs =>
    (if c = '\\' ∨ c = '\x22' then ['\\', c] else [c]) ++ jsonEscapeList cs

mutual
/-- Embedding of `JSON.stringify` on the modelled values (fields whose value
is undefined are omitted, as JSON.stringify does). -/
def jsonStringify : JSValue → String
  | .vstr s => "\x22" ++ String.mk (jsonEscapeList s.data) ++ "\x22"
  | .vnum n => toString n
  | .vbool b => cond b "true" "false"
  | .vnull => "null"
  | .vundefined => "null"
  | .vobj fields => "\x7b" ++ String.intercalate "," (jsonFields fields) ++ "\x7d"

/-- Serialization of the defined fields of an object, in order. -/
def jsonFields : List (String × JSValue) → List String
  | [] => []
  | (k, v) :: fs =>
    if jsIsUndef v then jsonFields fs
    else ("\x22" ++ String.mk (jsonEscapeList k.data) ++ "\x22:" ++ jsonStringify v) :: jsonFields fs
end

/-- The record normalizeError returns: line, col and message as JavaScript
values, plus the running index. -/
structure NormalizedError where
  line : JSValue
  col : JSValue
  message : JSValue
  idx : Nat

/-- Embedding of `normalizeError` from script.js (lines 9 to 22): a string
becomes a message with N/A positions; a truthy object keeps its own line and
col when they are not undefined and takes message, then msg, then the JSON
serialization of the whole object as the message; every other value gets N/A
positions and its string conversion as the message. -/
def normalizeError (err : JSValue) (idx : Nat) : NormalizedError :=
  if jsTypeof err = "string" then
    ⟨.vstr "N/A", .vstr "N/A", err, idx⟩
  else if jsTruthy err = true ∧ jsTypeof err = "object" then
    ⟨if jsIsUndef (jsGet err "line") then .vstr "N/A" else jsGet err "line",
     if jsIsUndef (jsGet err "col") then .vstr "N/A" else jsGet err "col",
     jsOr (jsGet err "message") (jsOr (jsGet err "msg") (.vstr (jsonStringify err))),
     idx⟩
  else
    ⟨.vstr "N/A", .vstr "N/A", .vstr (jsToString err), idx⟩

/-- Embedding of `token.lexeme || ''` from script.js (line 178): a missing
lexeme renders as the empty string. -/
def lexemeOrEmpty (lexeme : Option String) : String :=
  lexeme.getD ""

/-- Embedding of one error card of script.js (lines 98 to 118), with the
static style attributes elided: index and position are interpolated directly,
the message only through escapeHtml. -/
def renderErrorItem (line col message : JSValue) (idx : Nat) : String :=
  "<div class=\x22error-item\x22><div>Erreur #" ++ toString (idx + 1) ++
    "</div><div>Ligne " ++ jsToString line ++ ", Colonne " ++ jsToString col ++
    "</div><div>" ++ escapeHtml (jsToString message) ++ "</div></div>"

/-- Embedding of one token table row of script.js (lines 159 to 183), with
the static style attributes elided: the type and lexeme cells pass through
escapeHtml, position cells are interpolated directly. -/
def renderTokenRow (index : Nat) (t : TokenJson) : String :=
  "<tr><td>" ++ toString (index + 1) ++ "</td><td><span>" ++ escapeHtml t.type ++
    "</span></td><td><code>" ++ escapeHtml (lexemeOrEmpty t.lexeme) ++
    "</code></td><td>" ++ toString t.line ++ "</td><td>" ++ toString t.col ++ "</td></tr>"

/-- A symbol-table entry of the scan response as the front end consumes it. -/
structure SymInfoJson where
  first_line : Nat
  first_col : Nat
  occurrences : Nat
deriving DecidableEq

/-- Embedding of one symbol-table row of script.js (lines 211 to 236), with
the static style attributes elided: the identifier name passes through
escapeHtml, the numeric cells are interpolated directly. -/
def renderSymbolRow (index : Nat) (name : String) (info : SymInfoJson) : String :=
  "<tr><td>" ++ toString (index + 1) ++ "</td><td><code>" ++ escapeHtml name ++
    "</code></td><td>" ++ toString info.first_line ++ "</td><td>" ++
    toString info.first_col ++ "</td><td><span>" ++ toString info.occurrences ++
    "</span></td></tr>"

theorem len_dropWhile_le (p : Char → Bool) : ∀ l : List Char, (l.dropWhile p).length ≤ l.length := by
  intro l
  induction l with
  | nil => simp
  | cons c cs ih =>
    rw [List.dropWhile_cons]
    split
    · exact le_trans ih (by simp)
    · simp

theorem len_spanStr_rest_le : ∀ l : List Char, (spanStr l).rest.length ≤ l.length := by
  intro l
  induction l with
  | nil => simp [spanStr]
  | cons c cs ih =>
    simp only [spanStr]
    split
    · simp
    · split
      · simp
      · simpa using le_trans ih (by simp)

theorem len_spanBlock_rest_le : ∀ (l : List Char) (line col : Nat),
    (spanBlock l line col).rest.length ≤ l.length := by
  intro l
  induction l with
  | nil => intro line col; simp [spanBlock]
  | cons c cs ih =>
    intro line col
    simp only [spanBlock]
    split
    · simp
    · split
      · exact le_trans (ih _ _) (by simp)
      · exact le_trans (ih _ _) (by simp)

theorem len_skipFrac_rest_le : ∀ l : List Char, (skipFrac l).2.length ≤ l.length := by
  intro l
  induction l with
  | nil => simp [skipFrac]
  | cons c cs ih =>
    simp only [skipFrac]
    split
    · exact le_trans ih (by simp)
    · split
      · split
        · split
          · exact le_trans ih (by simp)
          · simp
        · simp
      · simp

theorem identStart_cont : ∀ c : Char, isIdentStart c = true → isIdentCont c = true := by
  intro c h
  simp [isIdentStart] at h
  rcases h with h | h <;> simp [isIdentCont, h]

theorem singleTok_next : ∀ (c : Char) (r : List Char) (line col : Nat) (tok : Option Token)
    (d : Option Diagnostic) (rest : List Char) (l2 c2 : Nat),
    singleTok c r line col = .next tok d rest l2 c2 →
    rest = r ∧ ∀ t, tok = some t → t.kind ≠ TokenKind.EOF := by
  intro c r line col tok d rest l2 c2 h
  unfold singleTok at h
  split at h
  · cases h; exact ⟨rfl, fun t ht => by cases ht; simp⟩
  · split at h
    · cases h; exact ⟨rfl, fun t ht => by cases ht; simp⟩
    · cases h; exact ⟨rfl, fun t ht => by simp at ht⟩

theorem identTok_next : ∀ (c : Char) (r : List Char) (line col : Nat) (tok : Option Token)
    (d : Option Diagnostic) (rest : List Char) (l2 c2 : Nat),
    isIdentCont c = true →
    identTok (c :: r) line col = .next tok d rest l2 c2 →
    rest.length ≤ r.length ∧ ∀ t, tok = some t → t.kind ≠ TokenKind.EOF := by
  intro c r line col tok d rest l2 c2 hc h
  have hdrop : (c :: r).dropWhile isIdentCont = r.dropWhile isIdentCont := by
    simp [List.dropWhile_cons, hc]
  unfold identTok at h
  split at h
  · cases h
    exact ⟨by rw [hdrop]; exact len_dropWhile_le _ r, fun t ht => by cases ht; simp⟩
  · cases h
    exact ⟨by rw [hdrop]; exact len_dropWhile_le _ r, fun t ht => by cases ht; simp⟩

theorem numTok_next : ∀ (c : Char) (r : List Char) (line col : Nat) (tok : Option Token)
    (d : Option Diagnostic) (rest : List Char) (l2 c2 : Nat),
    c.isDigit = true →
    numTok (c :: r) line col = .next tok d rest l2 c2 →
    rest.length ≤ r.length ∧ ∀ t, tok = some t → t.kind ≠ TokenKind.EOF := by
  intro c r line col tok d rest l2 c2 hc h
  have hdrop : (c :: r).dropWhile Char.isDigit = r.dropWhile Char.isDigit := by
    simp [List.dropWhile_cons, hc]
  have hlen1 : ((c :: r).dropWhile Char.isDigit).length ≤ r.length := by
    rw [hdrop]; exact len_dropWhile_le _ r
  unfold numTok at h
  split at h
  next d0 r2 heq =>
    have hlen2 : r2.length + 2 ≤ r.length := by
      have hx := congrArg List.length heq
      simp at hx
      omega
    split at h
    next hd0 =>
      have hdrop2 : (d0 :: r2).dropWhile Char.isDigit = r2.dropWhile Char.isDigit := by
        simp [List.dropWhile_cons, hd0]
      have hlen3 : ((d0 :: r2).dropWhile Char.isDigit).length ≤ r2.length := by
        rw [hdrop2]; exact len_dropWhile_le _ r2
      split at h
      next d2 r5 heq2 =>
        have hlen4 : r5.length + 2 ≤ r2.length := by
          have hx := congrArg List.length heq2
          simp at hx
          omega
        split at h
        · cases h
          refine ⟨?_, fun t ht => by cases ht; simp⟩
          have hs := len_skipFrac_rest_le ('.' :: d2 :: r5)
          simp at hs
          omega
        · cases h
          refine ⟨?_, fun t ht => by cases ht; simp⟩
          simp
          omega
      next heq2 =>
        cases h
        refine ⟨?_, fun t ht => by cases ht; simp⟩
        omega
    next hd0 =>
      cases h
      refine ⟨?_, fun t ht => by cases ht; simp⟩
      simp
      omega
  next heq =>
    cases h
    refine ⟨?_, fun t ht => by cases ht; simp⟩
    exact hlen1

theorem strTok_next : ∀ (body : List Char) (line col : Nat) (tok : Option Token)
    (d : Option Diagnostic) (rest : List Char) (l2 c2 : Nat),
    strTok body line col = .next tok d rest l2 c2 →
    rest.length ≤ body.length ∧ ∀ t, tok = some t → t.kind ≠ TokenKind.EOF := by
  intro body line col tok d rest l2 c2 h
  unfold strTok at h
  split at h <;>
    (cases h; exact ⟨len_spanStr_rest_le body, fun t ht => by cases ht; simp⟩)

theorem blockTok_next : ∀ (body : List Char) (line col : Nat) (tok : Option Token)
    (d : Option Diagnostic) (rest : List Char) (l2 c2 : Nat),
    blockTok body line col = .next tok d rest l2 c2 →
    rest.length ≤ body.length ∧ tok = none := by
  intro body line col tok d rest l2 c2 h
  unfold blockTok at h
  split at h
  · cases h; exact ⟨len_spanBlock_rest_le _ _ _, rfl⟩
  · cases h

theorem step_next_spec : ∀ (cs : List Char) (line col : Nat) (tok : Option Token)
    (d : Option Diagnostic) (rest : List Char) (l2 c2 : Nat),
    step cs line col = .next tok d rest l2 c2 →
    rest.length < cs.length ∧ ∀ t, tok = some t → t.kind ≠ TokenKind.EOF := by
  intro cs line col tok d rest l2 c2 h
  match cs with
  | [] => simp [step] at h
  | c :: rest0 =>
    simp only [step] at h
    split at h
    · cases h
      exact ⟨by simp, fun t ht => by simp at ht⟩
    split at h
    · cases h
      exact ⟨by simp, fun t ht => by simp at ht⟩
    split at h
    · cases h
      refine ⟨?_, fun t ht => by simp at ht⟩
      have h1 := len_dropWhile_le (fun x => x != '\n') rest0.tail
      have h2 : rest0.tail.length ≤ rest0.length := by
        cases rest0 <;> simp
      simp
      omega
    split at h
    · obtain ⟨hle, htok⟩ := blockTok_next rest0 line col tok d rest l2 c2 h
      exact ⟨by simp; omega, fun t ht => by rw [htok] at ht; simp at ht⟩
    split at h
    next hident =>
      obtain ⟨hle, htok⟩ :=
        identTok_next c rest0 line col tok d rest l2 c2 (identStart_cont c hident) h
      exact ⟨by simp; omega, htok⟩
    split at h
    next hdigit =>
      obtain ⟨hle, htok⟩ := numTok_next c rest0 line col tok d rest l2 c2 hdigit h
      exact ⟨by simp; omega, htok⟩
    split at h
    · obtain ⟨hle, htok⟩ := strTok_next rest0 line col tok d rest l2 c2 h
      exact ⟨by simp; omega, htok⟩
    split at h
    · split at h
      · cases h
        refine ⟨?_, fun t ht => by cases ht; simp⟩
        simp
        omega
      · obtain ⟨hrest, htok⟩ := singleTok_next _ _ _ _ _ _ _ _ _ h
        exact ⟨by rw [hrest]; simp, htok⟩
    · obtain ⟨hrest, htok⟩ := singleTok_next _ _ _ _ _ _ _ _ _ h
      exact ⟨by rw [hrest]; simp, htok⟩

theorem scanAux_spec : ∀ (fuel : Nat) (cs : List Char) (line col : Nat)
    (toks : List Token) (syms : List (String × SymbolEntry)) (diags : List Diagnostic),
    cs.length < fuel →
    ∃ tl t dtl,
      (scanAux fuel cs line col toks syms diags).tokens = toks ++ tl ++ [t] ∧
      t.kind = TokenKind.EOF ∧ t.lexeme = "" ∧
      (∀ u, u ∈ tl → u.kind ≠ TokenKind.EOF) ∧
      (scanAux fuel cs line col toks syms diags).symbols = List.foldl symStep syms tl ∧
      (scanAux fuel cs line col toks syms diags).diagnostics = diags ++ dtl ∧
      (scanAux fuel cs line col toks syms diags).success = (diags ++ dtl).isEmpty := by
  intro fuel
  induction fuel with
  | zero =>
    intro cs line col toks syms diags hlen
    omega
  | succ fuel ih =>
    intro cs line col toks syms diags hlen
    cases hstep : step cs line col with
    | eofOut =>
      refine ⟨[], ⟨.EOF, "", line, col⟩, [], ?_, rfl, rfl, by simp, ?_, ?_, ?_⟩ <;>
        simp [scanAux, hstep]
    | stop d el ec =>
      refine ⟨[], ⟨.EOF, "", el, ec⟩, [d], ?_, rfl, rfl, by simp, ?_, ?_, ?_⟩ <;>
        simp [scanAux, hstep]
    | next tok d rest l2 c2 =>
      obtain ⟨hlt, htok⟩ := step_next_spec cs line col tok d rest l2 c2 hstep
      obtain ⟨tl, t, dtl, h1, h2, h3, h4, h5, h6, h7⟩ :=
        ih rest l2 c2 (toks ++ tok.toList) (symAcc syms tok) (diags ++ d.toList) (by omega)
      refine ⟨tok.toList ++ tl, t, d.toList ++ dtl, ?_, h2, h3, ?_, ?_, ?_, ?_⟩
      · simp only [scanAux, hstep]
        rw [h1]
        simp
      · intro u hu
        rcases List.mem_append.mp hu with hu | hu
        · cases tok with
          | none => simp at hu
          | some w =>
            simp [Option.toList] at hu
            subst hu
            exact htok _ rfl
        · exact h4 u hu
      · simp only [scanAux, hstep]
        rw [h5]
        cases tok with
        | none => simp [symAcc]
        | some w => simp [symAcc]
      · simp only [scanAux, hstep]
        rw [h6]
        simp
      · simp only [scanAux, hstep]
        rw [h7]
        simp

theorem lookupSym_recordSym_self_none : ∀ (syms : List (String × SymbolEntry)) (x : String)
    (l c : Nat), lookupSym x syms = none →
    lookupSym x (recordSym syms x l c) = some ⟨l, c, 1⟩ := by
  intro syms x l c h
  induction syms with
  | nil => simp [recordSym, lookupSym]
  | cons p rest ih =>
    obtain ⟨n, e⟩ := p
    simp only [lookupSym] at h
    by_cases hn : n = x
    · rw [if_pos hn] at h
      exact absurd h (by simp)
    · rw [if_neg hn] at h
      simp only [recordSym]
      rw [if_neg hn]
      simp only [lookupSym]
      rw [if_neg hn]
      exact ih h

theorem lookupSym_recordSym_self_some : ∀ (syms : List (String × SymbolEntry)) (x : String)
    (l c : Nat) (e : SymbolEntry), lookupSym x syms = some e →
    lookupSym x (recordSym syms x l c) =
      some ⟨e.first_line, e.first_col, e.occurrences + 1⟩ := by
  intro syms x l c e h
  induction syms with
  | nil => simp [lookupSym] at h
  | cons p rest ih =>
    obtain ⟨n, e2⟩ := p
    simp only [lookupSym] at h
    by_cases hn : n = x
    · rw [if_pos hn] at h
      have he : e2 = e := by injection h
      subst he
      simp only [recordSym]
      rw [if_pos hn]
      simp only [lookupSym]
      rw [if_pos hn]
    · rw [if_neg hn] at h
      simp only [recordSym]
      rw [if_neg hn]
      simp only [lookupSym]
      rw [if_neg hn]
      exact ih h

theorem lookupSym_recordSym_ne : ∀ (syms : List (String × SymbolEntry)) (x y : String)
    (l c : Nat), y ≠ x →
    lookupSym x (recordSym syms y l c) = lookupSym x syms := by
  intro syms x y l c hne
  induction syms with
  | nil => simp [recordSym, lookupSym, hne]
  | cons p rest ih =>
    obtain ⟨n, e⟩ := p
    simp only [recordSym]
    by_cases hn : n = y
    · rw [if_pos hn]
      simp only [lookupSym]
      have hnx : ¬n = x := by rw [hn]; exact hne
      rw [if_neg hnx, if_neg hnx]
    · rw [if_neg hn]
      simp only [lookupSym]
      by_cases hx : n = x
      · rw [if_pos hx, if_pos hx]
      · rw [if_neg hx, if_neg hx]
        exact ih

theorem lookup_foldl_some : ∀ (toks : List Token) (syms : List (String × SymbolEntry))
    (x : String) (e : SymbolEntry), lookupSym x syms = some e →
    lookupSym x (List.foldl symStep syms toks) =
      some ⟨e.first_line, e.first_col, e.occurrences + (toks.filter (isIdLex x)).length⟩ := by
  intro toks
  induction toks with
  | nil =>
    intro syms x e h
    simpa using h
  | cons t ts ih =>
    intro syms x e h
    rw [List.foldl_cons]
    by_cases hid : isIdLex x t = true
    · have hx : t.kind = TokenKind.IDENTIFIER ∧ t.lexeme = x := by
        simpa [isIdLex] using hid
      have hst : symStep syms t = recordSym syms x t.line t.col := by
        simp [symStep, hx.1, hx.2]
      rw [hst]
      have h2 := lookupSym_recordSym_self_some syms x t.line t.col e h
      rw [ih _ _ _ h2]
      simp [List.filter_cons, hid]
      try omega
    · by_cases hk : t.kind = TokenKind.IDENTIFIER
      · have hlex : t.lexeme ≠ x := fun hl => hid (by simp [isIdLex, hk, hl])
        have hst : symStep syms t = recordSym syms t.lexeme t.line t.col := by
          simp [symStep, hk]
        rw [hst]
        have h2 : lookupSym x (recordSym syms t.lexeme t.line t.col) = some e := by
          rw [lookupSym_recordSym_ne _ _ _ _ _ hlex]
          exact h
        rw [ih _ _ _ h2]
        simp [List.filter_cons, hid]
      · have hst : symStep syms t = syms := by simp [symStep, hk]
        rw [hst, ih _ _ _ h]
        simp [List.filter_cons, hid]

theorem lookup_foldl_none : ∀ (toks : List Token) (syms : List (String × SymbolEntry))
    (x : String), lookupSym x syms = none →
    lookupSym x (List.foldl symStep syms toks) = entryOf (toks.filter (isIdLex x)) := by
  intro toks
  induction toks with
  | nil =>
    intro syms x h
    simpa [entryOf] using h
  | cons t ts ih =>
    intro syms x h
    rw [List.foldl_cons]
    by_cases hid : isIdLex x t = true
    · have hx : t.kind = TokenKind.IDENTIFIER ∧ t.lexeme = x := by
        simpa [isIdLex] using hid
      have hst : symStep syms t = recordSym syms x t.line t.col := by
        simp [symStep, hx.1, hx.2]
      rw [hst]
      have h2 := lookupSym_recordSym_self_none syms x t.line t.col h
      rw [lookup_foldl_some ts _ x ⟨t.line, t.col, 1⟩ h2]
      simp [List.filter_cons, hid, entryOf]
      omega
    · by_cases hk : t.kind = TokenKind.IDENTIFIER
      · have hlex : t.lexeme ≠ x := fun hl => hid (by simp [isIdLex, hk, hl])
        have hst : symStep syms t = recordSym syms t.lexeme t.line t.col := by
          simp [symStep, hk]
        rw [hst]
        have h2 : lookupSym x (recordSym syms t.lexeme t.line t.col) = none := by
          rw [lookupSym_recordSym_ne _ _ _ _ _ hlex]
          exact h
        rw [ih _ _ h2]
        simp [List.filter_cons, hid]
      · have hst : symStep syms t = syms := by simp [symStep, hk]
        rw [hst, ih _ _ h]
        simp [List.filter_cons, hid]

theorem foldl_symStep_replay : ∀ (toks : List Token) (syms : List (String × SymbolEntry)),
    List.foldl symStep syms toks =
      List.foldl (fun s c => recordSym s c.1 c.2.1 c.2.2) syms (recordCalls toks) := by
  intro toks
  induction toks with
  | nil => intro syms; simp [recordCalls]
  | cons t ts ih =>
    intro syms
    rw [List.foldl_cons]
    by_cases hk : t.kind = TokenKind.IDENTIFIER
    · have hst : symStep syms t = recordSym syms t.lexeme t.line t.col := by
        simp [symStep, hk]
      rw [hst, ih]
      simp [recordCalls, List.filter_cons, hk]
    · have hst : symStep syms t = syms := by simp [symStep, hk]
      rw [hst, ih]
      simp [recordCalls, List.filter_cons, hk]

theorem filter_eof_nil : ∀ (tl : List Token), (∀ u, u ∈ tl → u.kind ≠ TokenKind.EOF) →
    tl.filter (fun u => u.kind == TokenKind.EOF) = [] := by
  intro tl h
  induction tl with
  | nil => rfl
  | cons t ts ih =>
    rw [List.filter_cons]
    have ht : (t.kind == TokenKind.EOF) = false := by
      have := h t (by simp)
      simpa using this
    simp only [ht, if_neg, Bool.false_eq_true, not_false_iff]
    exact ih (fun u hu => h u (by simp [hu]))

theorem isEmpty_true_iff : ∀ (l : List Diagnostic), l.isEmpty = true ↔ l = [] := by
  intro l
  cases l <;> simp

theorem ampEscaped_cons_ne : ∀ (c : Char) (l : List Char), c ≠ '&' →
    ampEscaped (c :: l) = ampEscaped l := by
  intro c l h
  simp [ampEscaped, h]

theorem ampEscaped_amp : ∀ l : List Char,
    (l.take 4 = ['a', 'm', 'p', ';'] ∨ l.take 3 = ['l', 't', ';'] ∨
      l.take 3 = ['g', 't', ';']) →
    ampEscaped ('&' :: l) = ampEscaped l := by
  intro l h
  simp [ampEscaped, h]

theorem escapeHtmlList_safe : ∀ l : List Char,
    '<' ∉ escapeHtmlList l ∧ '>' ∉ escapeHtmlList l ∧
      ampEscaped (escapeHtmlList l) = true := by
  intro l
  induction l with
  | nil => exact ⟨by simp [escapeHtmlList], by simp [escapeHtmlList], rfl⟩
  | cons c cs ih =>
    obtain ⟨ih1, ih2, ih3⟩ := ih
    by_cases h1 : c = '&'
    · subst h1
      simp only [escapeHtmlList, if_pos]
      refine ⟨?_, ?_, ?_⟩
      · intro hm
        rcases List.mem_append.mp hm with hm | hm
        · exact absurd hm (by decide)
        · exact ih1 hm
      · intro hm
        rcases List.mem_append.mp hm with hm | hm
        · exact absurd hm (by decide)
        · exact ih2 hm
      · show ampEscaped ('&' :: 'a' :: 'm' :: 'p' :: ';' :: escapeHtmlList cs) = true
        rw [ampEscaped_amp _ (Or.inl (by simp))]
        rw [ampEscaped_cons_ne _ _ (by decide), ampEscaped_cons_ne _ _ (by decide),
          ampEscaped_cons_ne _ _ (by decide), ampEscaped_cons_ne _ _ (by decide)]
        exact ih3
    · by_cases h2 : c = '<'
      · subst h2
        simp only [escapeHtmlList]
        simp only [if_true, if_false]
        refine ⟨?_, ?_, ?_⟩
        · intro hm
          rcases List.mem_append.mp hm with hm | hm
          · exact absurd hm (by decide)
          · exact ih1 hm
        · intro hm
          rcases List.mem_append.mp hm with hm | hm
          · exact absurd hm (by decide)
          · exact ih2 hm
        · show ampEscaped ('&' :: 'l' :: 't' :: ';' :: escapeHtmlList cs) = true
          rw [ampEscaped_amp _ (Or.inr (Or.inl (by simp)))]
          rw [ampEscaped_cons_ne _ _ (by decide), ampEscaped_cons_ne _ _ (by decide),
            ampEscaped_cons_ne _ _ (by decide)]
          exact ih3
      · by_cases h3 : c = '>'
        · subst h3
          simp only [escapeHtmlList]
          simp only [if_true, if_false]
          refine ⟨?_, ?_, ?_⟩
          · intro hm
            rcases List.mem_append.mp hm with hm | hm
            · exact absurd hm (by decide)
            · exact ih1 hm
          · intro hm
            rcases List.mem_append.mp hm with hm | hm
            · exact absurd hm (by decide)
            · exact ih2 hm
          · show ampEscaped ('&' :: 'g' :: 't' :: ';' :: escapeHtmlList cs) = true
            rw [ampEscaped_amp _ (Or.inr (Or.inr (by simp)))]
            rw [ampEscaped_cons_ne _ _ (by decide), ampEscaped_cons_ne _ _ (by decide),
              ampEscaped_cons_ne _ _ (by decide)]
            exact ih3
        · simp only [escapeHtmlList]
          rw [if_neg h1, if_neg h2, if_neg h3]
          refine ⟨?_, ?_, ?_⟩
          · intro hm
            rcases List.mem_append.mp hm with hm | hm
            · simp at hm
              exact h2 hm.symm
            · exact ih1 hm
          · intro hm
            rcases List.mem_append.mp hm with hm | hm
            · simp at hm
              exact h3 hm.symm
            · exact ih2 hm
          · show ampEscaped (c :: escapeHtmlList cs) = true
            rw [ampEscaped_cons_ne _ _ h1]
            exact ih3

/-- Claim C1: for every input source text the ScanResult success flag is true
if and only if the diagnostics sequence is empty; scanning the empty input
yields zero diagnostics, a single EOF token, an empty symbol table and
success. -/
theorem scan_success_iff_diagnostics_empty : ∀ s : String,
    ((scan s).success = true ↔ (scan s).diagnostics = []) ∧
    (scan "").tokens = [⟨TokenKind.EOF, "", 1, 1⟩] ∧
    (scan "").symbols = [] ∧ (scan "").diagnostics = [] ∧
    (scan "").success = true := by
  intro s
  refine ⟨?_, rfl, rfl, rfl, rfl⟩
  obtain ⟨tl, t, dtl, h1, h2, h3, h4, h5, h6, h7⟩ :=
    scanAux_spec (s.data.length + 1) s.data 1 1 [] [] [] (by omega)
  show (scanAux (s.data.length + 1) s.data 1 1 [] [] []).success = true ↔
    (scanAux (s.data.length + 1) s.data 1 1 [] [] []).diagnostics = []
  rw [h6, h7]
  simp [isEmpty_true_iff]

/-- Claim C2: scan is total (it is a Lean function), and for every source
input the token sequence it returns has exactly one EOF token, with empty
lexeme, as its last element. -/
theorem scan_single_trailing_eof : ∀ s : String,
    (∃ ts t, (scan s).tokens = ts ++ [t] ∧ t.kind = TokenKind.EOF ∧
      t.lexeme = "" ∧ ∀ u, u ∈ ts → u.kind ≠ TokenKind.EOF) ∧
    ((scan s).tokens.filter (fun t => t.kind == TokenKind.EOF)).length = 1 := by
  intro s
  obtain ⟨tl, t, dtl, h1, h2, h3, h4, h5, h6, h7⟩ :=
    scanAux_spec (s.data.length + 1) s.data 1 1 [] [] [] (by omega)
  have h1x : (scan s).tokens = tl ++ [t] := by simpa using h1
  refine ⟨⟨tl, t, h1x, h2, h3, h4⟩, ?_⟩
  rw [h1x, List.filter_append, filter_eof_nil tl h4]
  simp [List.filter_cons, h2]

/-- Claim C3: the symbol table of a scan maps each identifier spelling to an
entry whose occurrence count is the number of IDENTIFIER tokens with that
lexeme and whose first position is the position of the first such token, and
the whole table equals one record invocation per IDENTIFIER token replayed in
scan order (never for KEYWORD tokens). -/
theorem scan_symbol_table_spec : ∀ (s x : String) (e : SymbolEntry),
    lookupSym x (scan s).symbols = some e →
    e.occurrences = ((scan s).tokens.filter (isIdLex x)).length ∧
    (∃ t0 ts, (scan s).tokens.filter (isIdLex x) = t0 :: ts ∧
      e.first_line = t0.line ∧ e.first_col = t0.col) ∧
    (scan s).symbols = replayRecords (recordCalls (scan s).tokens) := by
  intro s x e he
  obtain ⟨tl, t, dtl, h1, h2, h3, h4, h5, h6, h7⟩ :=
    scanAux_spec (s.data.length + 1) s.data 1 1 [] [] [] (by omega)
  have h1x : (scan s).tokens = tl ++ [t] := by simpa using h1
  have h5x : (scan s).symbols = List.foldl symStep [] tl := h5
  have hsym : (scan s).symbols = List.foldl symStep [] (scan s).tokens := by
    rw [h5x, h1x, List.foldl_append]
    simp [symStep, h2]
  have hreplay : (scan s).symbols = replayRecords (recordCalls (scan s).tokens) := by
    rw [hsym, foldl_symStep_replay]
    rfl
  have hlook : lookupSym x (scan s).symbols =
      entryOf ((scan s).tokens.filter (isIdLex x)) := by
    rw [hsym]
    exact lookup_foldl_none _ [] x rfl
  rw [hlook] at he
  cases hf : (scan s).tokens.filter (isIdLex x) with
  | nil =>
    rw [hf] at he
    simp [entryOf] at he
  | cons t0 ts =>
    rw [hf] at he
    simp only [entryOf, Option.some.injEq] at he
    subst he
    refine ⟨?_, ⟨t0, ts, rfl, rfl, rfl⟩, hreplay⟩
    simp

/-- Witness for claim C3: in the program with two occurrences of the
identifier x around the keyword begin, the symbol table reports exactly two
occurrences of x. -/
theorem scan_symbol_table_spec_witness :
    (⟨1, 1, 2⟩ : SymbolEntry).occurrences =
      ((scan "x begin x").tokens.filter (isIdLex "x")).length :=
  (scan_symbol_table_spec "x begin x" "x" ⟨1, 1, 2⟩ (by decide)).1

/-- Claim C4: no lexical fault is fatal: every scan reaches DONE with an EOF
token in its result, and the input with an unterminated string on line one
followed by valid code on line two still yields the tokens of the valid code
plus exactly one unterminated-string diagnostic. -/
theorem scan_fault_tolerance :
    (∀ s : String, ∃ t, t ∈ (scan s).tokens ∧ t.kind = TokenKind.EOF) ∧
    scan (String.mk ['x', ' ', ':', '=', ' ', quoteChar, 'a', 'b', 'c', '\n',
        'y', ' ', ':', '=', ' ', '1']) =
      ⟨[⟨TokenKind.IDENTIFIER, "x", 1, 1⟩, ⟨TokenKind.OPERATOR, ":=", 1, 3⟩,
        ⟨TokenKind.STRING, String.mk [quoteChar, 'a', 'b', 'c'], 1, 6⟩,
        ⟨TokenKind.IDENTIFIER, "y", 2, 1⟩, ⟨TokenKind.OPERATOR, ":=", 2, 3⟩,
        ⟨TokenKind.INTEGER, "1", 2, 6⟩, ⟨TokenKind.EOF, "", 2, 7⟩],
       [("x", ⟨1, 1, 1⟩), ("y", ⟨2, 1, 1⟩)],
       [⟨1, 6, "unterminated string literal"⟩], false⟩ := by
  constructor
  · intro s
    obtain ⟨tl, t, dtl, h1, h2, h3, h4, h5, h6, h7⟩ :=
      scanAux_spec (s.data.length + 1) s.data 1 1 [] [] [] (by omega)
    have h1x : (scan s).tokens = tl ++ [t] := by simpa using h1
    exact ⟨t, by rw [h1x]; simp, h2⟩
  · decide

/-- Claim C5: maximal munch on the three spec witnesses: one two-character
operator token for the less-or-equal input, one REAL token for 1.5, and an
INTEGER token followed by a separate delimiter token for the input 1. with no
trailing digit. -/
theorem scan_maximal_munch :
    scan "<=" = ⟨[⟨TokenKind.OPERATOR, "<=", 1, 1⟩, ⟨TokenKind.EOF, "", 1, 3⟩],
      [], [], true⟩ ∧
    scan "1.5" = ⟨[⟨TokenKind.REAL, "1.5", 1, 1⟩, ⟨TokenKind.EOF, "", 1, 4⟩],
      [], [], true⟩ ∧
    scan "1." = ⟨[⟨TokenKind.INTEGER, "1", 1, 1⟩, ⟨TokenKind.DELIMITER, ".", 1, 2⟩,
      ⟨TokenKind.EOF, "", 1, 3⟩], [], [], true⟩ :=
  ⟨by decide, by decide, by decide⟩

/-- Claim C8: scanning is deterministic and stateless across calls: in any
session, two submissions of the same text yield structurally identical
results, independent of the call history. -/
theorem scan_stateless_idempotent : ∀ (history : List String) (s : String),
    scanSession (history ++ [s, s]) = scanSession history ++ [scan s, scan s] := by
  intro history s
  simp [scanSession]

/-- Claim C6: the display layer filters out EOF tokens before rendering: the
displayed table keeps exactly the tokens whose type is not EOF, in their
original order, and the displayed count is the number of those tokens. -/
theorem tokens_display_filter_spec : ∀ ts : List TokenJson,
    List.Sublist (tokensWithoutEOF (some ts)) ts ∧
    (∀ t, t ∈ tokensWithoutEOF (some ts) → t ∈ ts ∧ t.type ≠ "EOF") ∧
    (∀ t, t ∈ ts → t.type ≠ "EOF" → t ∈ tokensWithoutEOF (some ts)) ∧
    displayedTokenCount (some ts) = List.countP (fun t => !(t.type == "EOF")) ts ∧
    tokensWithoutEOF none = [] := by
  intro ts
  refine ⟨?_, ?_, ?_, ?_, rfl⟩
  · exact List.filter_sublist ts
  · intro t ht
    simp only [tokensWithoutEOF] at ht
    have hm := List.mem_filter.mp ht
    refine ⟨hm.1, ?_⟩
    simpa using hm.2
  · intro t ht hne
    simp only [tokensWithoutEOF]
    exact List.mem_filter.mpr ⟨ht, by simpa using hne⟩
  · simp [displayedTokenCount, tokensWithoutEOF, List.countP_eq_length_filter]

/-- Witness for claim C6: a non-EOF token of a concrete response survives the
display filter. -/
theorem tokens_display_filter_spec_witness :
    (⟨"IDENTIFIER", some "x", 1, 1⟩ : TokenJson) ∈
      tokensWithoutEOF (some [⟨"IDENTIFIER", some "x", 1, 1⟩, ⟨"EOF", some "", 1, 2⟩]) :=
  (tokens_display_filter_spec _).2.2.1 _ (by decide) (by decide)

/-- Claim C7: a submit click whose editor content trims to the empty string
renders the validation warning and sends no request; a scan request is sent
exactly when the trimmed content is non-empty. -/
theorem submit_click_empty_guard : ∀ content : String,
    (jsTrim content = "" → submitClick content = SubmitAction.showWarning) ∧
    (jsTrim content ≠ "" →
      submitClick content = SubmitAction.sendScan (jsTrim content)) ∧
    (∀ body, submitClick content = SubmitAction.sendScan body →
      jsTrim content ≠ "") := by
  intro content
  refine ⟨fun h => by simp [submitClick, h], fun h => by simp [submitClick, h], ?_⟩
  intro body h hempty
  simp [submitClick, hempty] at h

/-- Witness for claim C7: whitespace-only content warns without a request,
non-empty content posts the trimmed code. -/
theorem submit_click_empty_guard_witness :
    submitClick "   " = SubmitAction.showWarning ∧
    submitClick " x " = SubmitAction.sendScan "x" := by
  constructor
  · exact (submit_click_empty_guard "   ").1 (by decide)
  · have h := (submit_click_empty_guard " x ").2.1 (by decide)
    rw [show jsTrim " x " = "x" from by decide] at h
    exact h

/-- Claim C9: every server-supplied field the results HTML interpolates
(error message, token type, token lexeme, symbol name) passes through
escapeHtml first, and escapeHtml output never contains a raw angle bracket
and only entity-starting ampersands: the rendered fragments depend on those
fields only through their escaped form. -/
theorem rendered_fields_escaped :
    (∀ s : String, '<' ∉ (escapeHtml s).data ∧ '>' ∉ (escapeHtml s).data ∧
      ampEscaped (escapeHtml s).data = true) ∧
    (∀ (line col m1 m2 : JSValue) (idx : Nat),
      escapeHtml (jsToString m1) = escapeHtml (jsToString m2) →
      renderErrorItem line col m1 idx = renderErrorItem line col m2 idx) ∧
    (∀ (i : Nat) (t1 t2 : TokenJson), t1.line = t2.line → t1.col = t2.col →
      escapeHtml t1.type = escapeHtml t2.type →
      escapeHtml (lexemeOrEmpty t1.lexeme) = escapeHtml (lexemeOrEmpty t2.lexeme) →
      renderTokenRow i t1 = renderTokenRow i t2) ∧
    (∀ (i : Nat) (n1 n2 : String) (info : SymInfoJson),
      escapeHtml n1 = escapeHtml n2 →
      renderSymbolRow i n1 info = renderSymbolRow i n2 info) := by
  refine ⟨?_, ?_, ?_, ?_⟩
  · intro s
    simpa [escapeHtml] using escapeHtmlList_safe s.data
  · intro line col m1 m2 idx h
    simp only [renderErrorItem, h]
  · intro i t1 t2 h1 h2 h3 h4
    simp only [renderTokenRow, h1, h2, h3, h4]
  · intro i n1 n2 info h
    simp only [renderSymbolRow, h]

/-- Witness for claim C9: a string message and a numeric message with the
same text render identically, and the escape of an angle bracket is checked
on a concrete string. -/
theorem rendered_fields_escaped_witness :
    renderErrorItem (JSValue.vstr "1") (JSValue.vstr "2") (JSValue.vstr "5") 0 =
      renderErrorItem (JSValue.vstr "1") (JSValue.vstr "2") (JSValue.vnum 5) 0 :=
  rendered_fields_escaped.2.1 _ _ _ _ 0 (by decide)

theorem vstr_ne_undef : ∀ s : String, JSValue.vstr s ≠ JSValue.vundefined :=
  fun _ h => JSValue.noConfusion h

theorem jsTruthy_ne_undef : ∀ v : JSValue, jsTruthy v = true → v ≠ JSValue.vundefined := by
  intro v h hv
  subst hv
  simp [jsTruthy] at h

theorem jsIsUndef_false_ne : ∀ v : JSValue, jsIsUndef v = false → v ≠ JSValue.vundefined := by
  intro v h hv
  subst hv
  simp [jsIsUndef] at h

theorem jsOr_ne_undef : ∀ a b : JSValue, b ≠ JSValue.vundefined →
    jsOr a b ≠ JSValue.vundefined := by
  intro a b hb
  unfold jsOr
  split
  next h => exact jsTruthy_ne_undef a h
  next => exact hb

theorem jsTypeof_string_vstr : ∀ v : JSValue, jsTypeof v = "string" →
    ∃ s, v = JSValue.vstr s := by
  intro v h
  cases v with
  | vstr s => exact ⟨s, rfl⟩
  | vnum n => simp [jsTypeof] at h
  | vbool b => simp [jsTypeof] at h
  | vnull => simp [jsTypeof] at h
  | vundefined => simp [jsTypeof] at h
  | vobj fs => simp [jsTypeof] at h

/-- Claim C10: normalizeError is total over all error shapes: the returned
line, col and message are always defined; a string error keeps itself as the
message with N/A positions; a truthy object keeps its own defined line and
col, falling back to N/A, and its message falls back from message to msg to
the JSON serialization of the object; every other value gets N/A positions
and its string conversion as the message. -/
theorem normalizeError_total_spec : ∀ (err : JSValue) (idx : Nat),
    ((normalizeError err idx).line ≠ JSValue.vundefined ∧
     (normalizeError err idx).col ≠ JSValue.vundefined ∧
     (normalizeError err idx).message ≠ JSValue.vundefined) ∧
    (jsTypeof err = "string" →
      normalizeError err idx = ⟨JSValue.vstr "N/A", JSValue.vstr "N/A", err, idx⟩) ∧
    (jsTruthy err = true → jsTypeof err = "object" →
      (jsIsUndef (jsGet err "line") = false →
        (normalizeError err idx).line = jsGet err "line") ∧
      (jsIsUndef (jsGet err "line") = true →
        (normalizeError err idx).line = JSValue.vstr "N/A") ∧
      (jsIsUndef (jsGet err "col") = false →
        (normalizeError err idx).col = jsGet err "col") ∧
      (jsIsUndef (jsGet err "col") = true →
        (normalizeError err idx).col = JSValue.vstr "N/A") ∧
      (jsTruthy (jsGet err "message") = true →
        (normalizeError err idx).message = jsGet err "message") ∧
      (jsTruthy (jsGet err "message") = false → jsTruthy (jsGet err "msg") = true →
        (normalizeError err idx).message = jsGet err "msg") ∧
      (jsTruthy (jsGet err "message") = false → jsTruthy (jsGet err "msg") = false →
        (normalizeError err idx).message = JSValue.vstr (jsonStringify err))) ∧
    (jsTypeof err ≠ "string" → ¬(jsTruthy err = true ∧ jsTypeof err = "object") →
      normalizeError err idx = ⟨JSValue.vstr "N/A", JSValue.vstr "N/A",
        JSValue.vstr (jsToString err), idx⟩) := by
  intro err idx
  by_cases hs : jsTypeof err = "string"
  · have hn : normalizeError err idx =
        ⟨JSValue.vstr "N/A", JSValue.vstr "N/A", err, idx⟩ := by
      unfold normalizeError
      rw [if_pos hs]
    obtain ⟨s, hv⟩ := jsTypeof_string_vstr err hs
    refine ⟨⟨by rw [hn]; exact vstr_ne_undef _, by rw [hn]; exact vstr_ne_undef _, ?_⟩,
      fun _ => hn, ?_, fun hns _ => absurd hs hns⟩
    · rw [hn, hv]
      exact vstr_ne_undef s
    · intro htr hob
      rw [hs] at hob
      simp at hob
  · by_cases hobj : jsTruthy err = true ∧ jsTypeof err = "object"
    · have hn : normalizeError err idx =
          ⟨if jsIsUndef (jsGet err "line") then JSValue.vstr "N/A" else jsGet err "line",
           if jsIsUndef (jsGet err "col") then JSValue.vstr "N/A" else jsGet err "col",
           jsOr (jsGet err "message")
             (jsOr (jsGet err "msg") (JSValue.vstr (jsonStringify err))), idx⟩ := by
        unfold normalizeError
        rw [if_neg hs, if_pos hobj]
      refine ⟨⟨?_, ?_, ?_⟩, fun h => absurd h hs, fun _ _ => ?_,
        fun _ hnot => absurd hobj hnot⟩
      · rw [hn]
        show (if jsIsUndef (jsGet err "line") then JSValue.vstr "N/A"
          else jsGet err "line") ≠ JSValue.vundefined
        split
        · exact vstr_ne_undef _
        next hu => exact jsIsUndef_false_ne _ (by simpa using hu)
      · rw [hn]
        show (if jsIsUndef (jsGet err "col") then JSValue.vstr "N/A"
          else jsGet err "col") ≠ JSValue.vundefined
        split
        · exact vstr_ne_undef _
        next hu => exact jsIsUndef_false_ne _ (by simpa using hu)
      · rw [hn]
        exact jsOr_ne_undef _ _ (jsOr_ne_undef _ _ (vstr_ne_undef _))
      · rw [hn]
        refine ⟨fun h => by simp [h], fun h => by simp [h], fun h => by simp [h],
          fun h => by simp [h], fun h => by simp [jsOr, h],
          fun h1 h2 => by simp [jsOr, h1, h2], fun h1 h2 => by simp [jsOr, h1, h2]⟩
    · have hn : normalizeError err idx = ⟨JSValue.vstr "N/A", JSValue.vstr "N/A",
          JSValue.vstr (jsToString err), idx⟩ := by
        unfold normalizeError
        rw [if_neg hs, if_neg hobj]
      refine ⟨⟨by rw [hn]; exact vstr_ne_undef _, by rw [hn]; exact vstr_ne_undef _,
        by rw [hn]; exact vstr_ne_undef _⟩, fun h => absurd h hs,
        fun htr hob => absurd ⟨htr, hob⟩ hobj, fun _ _ => hn⟩

/-- Witness for claim C10: an object error carrying a numeric line and a msg
field but no message field keeps its line and falls back to msg. -/
theorem normalizeError_total_spec_witness :
    (normalizeError (JSValue.vobj [("line", JSValue.vnum 3),
        ("msg", JSValue.vstr "boom")]) 0).line = JSValue.vnum 3 ∧
    (normalizeError (JSValue.vobj [("line", JSValue.vnum 3),
        ("msg", JSValue.vstr "boom")]) 0).message = JSValue.vstr "boom" := by
  have h := (normalizeError_total_spec
    (JSValue.vobj [("line", JSValue.vnum 3), ("msg", JSValue.vstr "boom")]) 0).2.2.1
    (by decide) (by decide)
  exact ⟨h.1 (by decide), h.2.2.2.2.2.1 (by decide) (by decide)⟩
